import Mathlib

/-!
Verification of the session layer of the repository (src/requests/sessions.py).

The development shallowly embeds the Python source: Python dictionaries become
association lists with unique keys, Python values relevant to the merge
algorithm become the inductive type `PyVal`, cookie jars become lists of
`Cookie` records keyed by (name, domain, path), and fallible code returns
`Except`.  Helper functions that live in sibling modules of the repository
(requests.utils, requests.cookies, requests.safe_mode, urllib3), and are hence
missing from the sources, are modelled from the spec and marked as such in
their doc comments.
-/

set_option autoImplicit false

universe u v

/-- The universe of Python values that flow through the session layer's
merge algorithm: `none` is Python's `None`, `dict` is a mapping written as an
association list in insertion order (Python dict keys are unique), `list` is
a sequence. -/
inductive PyVal where
  | none
  | bool (b : Bool)
  | num (n : Int)
  | str (s : String)
  | list (xs : List PyVal)
  | dict (xs : List (String × PyVal))

/-- Python's `x is None` test. -/
def PyVal.isNone : PyVal → Bool
  | .none => true
  | _ => false

/-- Python's `isinstance(x, str)` test (sessions.py line 32). -/
def PyVal.isStr : PyVal → Bool
  | .str _ => true
  | _ => false

/-- Python's `hasattr(x, 'items')` test (sessions.py line 39): among the
values modelled here, only dictionaries expose an items view. -/
def PyVal.hasItems : PyVal → Bool
  | .dict _ => true
  | _ => false

namespace Dict

variable {κ : Type u} {α : Type v} [DecidableEq κ]

/-- Python `d[k]` lookup on a dict modelled as an association list:
the first binding for the key (keys are unique in a real dict). -/
def lookup (d : List (κ × α)) (k : κ) : Option α :=
  (d.find? (fun kv => kv.1 = k)).map (fun kv => kv.2)

/-- Python `k in d`. -/
def hasKey (d : List (κ × α)) (k : κ) : Bool :=
  d.any (fun kv => kv.1 = k)

/-- Python `d[k] = v`: overwrite in place if the key is present (keeping its
position, as dicts do), otherwise append the new binding. -/
def insert (d : List (κ × α)) (k : κ) (v : α) : List (κ × α) :=
  if hasKey d k then d.map (fun kv => if kv.1 = k then (k, v) else kv)
  else d ++ [(k, v)]

/-- Python `del d[k]`: drop every binding of the key. -/
def erase (d : List (κ × α)) (k : κ) : List (κ × α) :=
  d.filter (fun kv => ¬ (kv.1 = k))

/-- Python `d.setdefault(k, v)`: insert only when the key is absent. -/
def setdefault (d : List (κ × α)) (k : κ) (v : α) : List (κ × α) :=
  if hasKey d k then d else d ++ [(k, v)]

/-- Python `d.update(l)`: insert every binding of `l`, in order,
into `d` (sessions.py line 47). -/
def update (d l : List (κ × α)) : List (κ × α) :=
  l.foldl (fun acc kv => insert acc kv.1 kv.2) d

end Dict

/-- Error kinds of the merge pipeline: `typeKind` for a malformed input shape
fed to the normalizer, `keyErrorKind` for deleting a key absent from the base
mapping. -/
inductive MergeErr where
  | typeKind
  | keyErrorKind
deriving DecidableEq

/-- Modelled from the spec: `from_key_val_list` (requests.utils, not part of
the sources) normalizes a heterogeneous input to an ordered mapping: absent
input gives the empty mapping, an existing mapping is used as-is, a sequence
of 2-element (key, value) pairs is folded into a mapping preserving
first-seen key order, and any other shape is a `TypeKind` error. -/
def from_key_val_list : PyVal → Except MergeErr (List (String × PyVal))
  | .none => .ok []
  | .dict d => .ok d
  | .list xs =>
      xs.foldlM
        (fun acc x =>
          match x with
          | .list [.str k, v] => .ok (Dict.insert acc k v)
          | _ => .error .typeKind)
        []
  | _ => .error .typeKind

/-- The key-deletion pass of `merge_kwargs` (sessions.py lines 49-52):
`for (k, v) in local_kwarg.items(): if v is None: del kwargs[k]`.
A Python `del` on an absent key raises `KeyError`, modelled as
`MergeErr.keyErrorKind`. -/
def del_dead_keys (kwargs : List (String × PyVal)) :
    List (String × PyVal) → Except MergeErr (List (String × PyVal))
  | [] => .ok kwargs
  | (k, v) :: rest =>
      if v.isNone then
        if Dict.hasKey kwargs k then del_dead_keys (Dict.erase kwargs k) rest
        else .error .keyErrorKind
      else del_dead_keys kwargs rest

/-- `merge_kwargs` (sessions.py lines 23-54), statement by statement:
absent session default returns the local value; a string local value is
returned unmerged; an absent local value returns the default; a default that
is not a mapping returns the local value; otherwise both sides are
normalized, a copy of the default is updated with the local bindings, and
every key whose local value is `None` is then deleted. -/
def merge_kwargs (local_kwarg default_kwarg : PyVal) : Except MergeErr PyVal :=
  if default_kwarg.isNone then .ok local_kwarg
  else if local_kwarg.isStr then .ok local_kwarg
  else if local_kwarg.isNone then .ok default_kwarg
  else if ¬ default_kwarg.hasItems then .ok local_kwarg
  else do
    let dd ← from_key_val_list default_kwarg
    let dl ← from_key_val_list local_kwarg
    let kwargs := Dict.update dd dl
    let kwargs ← del_dead_keys kwargs dl
    return .dict kwargs

/-- Whether a mapping binds a key to the absent sentinel `None`: the
condition under which `merge_kwargs` deletes the key from its result. -/
def lookupIsNone (d : List (String × PyVal)) (k : String) : Bool :=
  match Dict.lookup d k with
  | some v => v.isNone
  | none => false

/-- A cookie as stored in a jar.  A jar is keyed by (name, domain, path);
a cookie built from a plain mapping entry carries the default domain and
path.  The value is `Option String` because a mapping entry may map a name
to Python `None` (the explicit-unset sentinel of `request()`). -/
structure Cookie where
  name : String
  domain : String
  path : String
  value : Option String
deriving DecidableEq

/-- A cookie jar: a list of cookies in insertion order, at most one cookie
per (name, domain, path) key. -/
abbrev Jar := List Cookie

/-- The (name, domain, path) key of a cookie. -/
def Cookie.key (c : Cookie) : String × String × String :=
  (c.name, c.domain, c.path)

/-- Modelled from the spec: `CookieJar.set_cookie` (cookielib, used through
requests.cookies, not part of the sources) upserts by the
(name, domain, path) key: an existing cookie with the same key is replaced
in place, otherwise the cookie is appended. -/
def Jar.set_cookie (jar : Jar) (c : Cookie) : Jar :=
  if jar.any (fun x => x.key = c.key) then
    jar.map (fun x => if x.key = c.key then c else x)
  else jar ++ [c]

/-- Modelled from the spec: `cookiejar_from_dict` (requests.cookies, not part
of the sources) builds a jar with one cookie per mapping entry
(name, value), with the default domain and path; a `None` argument yields an
empty jar. -/
def cookiejar_from_dict (d : Option (List (String × Option String))) : Jar :=
  (d.getD []).foldl
    (fun jar kv => jar.set_cookie ⟨kv.1, "", "/", kv.2⟩) []

/-- Modelled from the spec: `remove_cookie_by_name` (requests.cookies, not
part of the sources) deletes every cookie whose name matches, regardless of
domain and path. -/
def remove_cookie_by_name (jar : Jar) (name : String) : Jar :=
  jar.filter (fun c => ¬ (c.name = name))

/-- Lookup of a jar's cookie value at a full (name, domain, path) key:
the value of the first (and, in a well-formed jar, only) matching cookie. -/
def Jar.lookup (jar : Jar) (key : String × String × String) : Option (Option String) :=
  (jar.find? (fun c => c.key = key)).map (fun c => c.value)

/-- Modelled from the spec: the `PoolManager` handle (urllib3, not part of
the sources) is opaque to this core; only its two construction parameters
are tracked. -/
structure PoolManager where
  num_pools : Option PyVal
  maxsize : Option PyVal

/-- The state of a `Session` (sessions.py lines 57-141).  `__init__` runs
`headers`, `proxies`, `hooks`, `params` and `config` through
`from_key_val_list`, so they are mappings; `cookies` is always a jar;
the scalar-like attributes keep their Python values. -/
structure Session where
  headers : List (String × PyVal)
  cookies : Jar
  auth : PyVal
  timeout : PyVal
  proxies : List (String × PyVal)
  hooks : List (String × PyVal)
  params : List (String × PyVal)
  config : List (String × PyVal)
  verify : PyVal
  cert : PyVal
  prefetch : Bool
  poolmanager : PoolManager

/-- `Session.init_poolmanager` (sessions.py lines 143-147): a fresh pool
handle configured from `config['pool_connections']` and
`config['pool_maxsize']`. -/
def Session.init_poolmanager (config : List (String × PyVal)) : PoolManager :=
  { num_pools := Dict.lookup config "pool_connections"
    maxsize := Dict.lookup config "pool_maxsize" }

/-- The snapshot produced by `Session.__getstate__`: exactly the tracked
attribute set `__attrs__` (sessions.py lines 64-66), without the pool
handle. -/
structure SessionState where
  headers : List (String × PyVal)
  cookies : Jar
  auth : PyVal
  timeout : PyVal
  proxies : List (String × PyVal)
  hooks : List (String × PyVal)
  params : List (String × PyVal)
  config : List (String × PyVal)
  verify : PyVal
  cert : PyVal
  prefetch : Bool

/-- `Session.__getstate__` (sessions.py lines 428-429): the snapshot holds
the value of each attribute in `__attrs__` and nothing else. -/
def Session.getstate (s : Session) : SessionState :=
  { headers := s.headers, cookies := s.cookies, auth := s.auth
    timeout := s.timeout, proxies := s.proxies, hooks := s.hooks
    params := s.params, config := s.config, verify := s.verify
    cert := s.cert, prefetch := s.prefetch }

/-- `Session.__setstate__` (sessions.py lines 431-435): restore every tracked
attribute from the snapshot, then rebuild the pool handle fresh from the
restored config via `init_poolmanager`. -/
def Session.setstate (st : SessionState) : Session :=
  { headers := st.headers, cookies := st.cookies, auth := st.auth
    timeout := st.timeout, proxies := st.proxies, hooks := st.hooks
    params := st.params, config := st.config, verify := st.verify
    cert := st.cert, prefetch := st.prefetch
    poolmanager := Session.init_poolmanager st.config }

/-- The `cookies` argument of `request()`: Python `None`, a plain mapping
(name to value-or-`None`), or a pre-built cookie jar. -/
inductive CookiesArg where
  | pynone
  | dict (d : List (String × Option String))
  | jar (j : Jar)

/-- The dead-cookie names recorded at sessions.py line 277:
`[name for name in cookies if cookies[name] is None]`. -/
def deadNames (d : List (String × Option String)) : List String :=
  d.filterMap (fun kv => if kv.2 = none then some kv.1 else none)

/-- The cookie-reconciliation block of `Session.request`
(sessions.py lines 268-285), as an effect on the pair
(session state, per-call jar `args['cookies']`):
a non-jar `cookies` argument is turned into a fresh jar and its `None`-valued
names are recorded as dead; every session cookie is then upserted into the
per-call jar; finally every dead name is removed from the per-call jar.
No statement of the block writes any session attribute. -/
def Session.requestCookieEffect (s : Session) (cookies : CookiesArg) :
    Session × Jar :=
  let argsCookies : Jar :=
    match cookies with
    | .jar j => j
    | .pynone => cookiejar_from_dict none
    | .dict d => cookiejar_from_dict (some d)
  let dead_cookies : Option (List String) :=
    match cookies with
    | .jar _ => none
    | .pynone => none
    | .dict d => some (deadNames d)
  let argsCookies := s.cookies.foldl Jar.set_cookie argsCookies
  let argsCookies :=
    match dead_cookies with
    | none => argsCookies
    | some names => names.foldl remove_cookie_by_name argsCookies
  (s, argsCookies)

/-- The hook-seeding loop of `Session.request` (sessions.py lines 239-241):
`for key, cb in self.hooks.items(): hooks.setdefault(key, cb)`, run on the
call's `hooks` mapping. -/
def seedHooks (callHooks sessionHooks : List (String × PyVal)) :
    List (String × PyVal) :=
  sessionHooks.foldl (fun acc kv => Dict.setdefault acc kv.1 kv.2) callHooks

/-- A rendering of a scalar Python value for the expanded header form. -/
def pyToString : PyVal → String
  | .str s => s
  | .num n => toString n
  | .bool b => if b then "True" else "False"
  | _ => ""

/-- Modelled from the spec: `header_expand` (requests.utils, not part of the
sources) expands a header value that is a sequence to its comma-joined wire
form and leaves scalar values unchanged. -/
def header_expand : PyVal → PyVal
  | .list xs => .str (String.intercalate ", " (xs.map pyToString))
  | v => v

/-- The header-expansion loop of `Session.request` (sessions.py lines
243-246): every value of the call's `headers` mapping is replaced by its
expanded wire form (the loop body runs only on a non-empty mapping, which
makes no observable difference on an empty one). -/
def expandHeaders (headers : List (String × PyVal)) : List (String × PyVal) :=
  if headers.isEmpty then headers
  else headers.map (fun kv => (kv.1, header_expand kv.2))

/-- A store of Python dictionary objects, addressed by object identity:
the mutable heap through which `request()` reaches the caller-owned
`headers` and `hooks` dictionaries. -/
abbrev Store := List (Nat × List (String × PyVal))

/-- An address unused by the store, for the fresh empty dicts `request()`
builds when an argument is absent. -/
def freshAddr (st : Store) : Nat :=
  (st.map (fun c => c.1)).foldl max 0 + 1

/-- The caller-visible mutation prefix of `Session.request` (sessions.py
lines 234, 236, 239-246), on the object store: an absent `headers`/`hooks`
argument is replaced by a fresh empty dict, otherwise the caller's own
object is used; the hook-seeding loop then writes through the `hooks`
address and the header-expansion loop writes through the `headers` address.
Returns the store after the two loops together with the addresses the
loops wrote through. -/
def Session.requestMutateCaller (st : Store) (headersArg hooksArg : Option Nat)
    (sessionHooks : List (String × PyVal)) : Store × Nat × Nat :=
  let (st, ha) :=
    match headersArg with
    | some a => (st, a)
    | none => let a := freshAddr st; (Dict.insert st a [], a)
  let (st, ka) :=
    match hooksArg with
    | some a => (st, a)
    | none => let a := freshAddr st; (Dict.insert st a [], a)
  let st :=
    match Dict.lookup st ka with
    | some hk => Dict.insert st ka (seedHooks hk sessionHooks)
    | none => st
  let st :=
    match Dict.lookup st ha with
    | some hd => Dict.insert st ha (expandHeaders hd)
    | none => st
  (st, ha, ka)

/-- The `allow_redirects` value carried by the request descriptor:
`request()`'s own signature defaults it to `True` when the caller's keyword
set does not contain it (sessions.py line 178), and it is not in
`__attrs__`, so the merge loop leaves it alone. -/
def Session.request_allow_redirects (allow_redirects : Option Bool) : Bool :=
  allow_redirects.getD true

/-- `Session.get` (sessions.py lines 321-334):
`kwargs.setdefault('allow_redirects', True)` before delegating to
`request`. -/
def Session.get_allow_redirects (kwargs : Option Bool) : Bool :=
  Session.request_allow_redirects (some (kwargs.getD true))

/-- `Session.options` (sessions.py lines 336-349):
`kwargs.setdefault('allow_redirects', True)` before delegating to
`request`. -/
def Session.options_allow_redirects (kwargs : Option Bool) : Bool :=
  Session.request_allow_redirects (some (kwargs.getD true))

/-- `Session.head` (sessions.py lines 351-364):
`kwargs.setdefault('allow_redirects', False)` before delegating to
`request`. -/
def Session.head_allow_redirects (kwargs : Option Bool) : Bool :=
  Session.request_allow_redirects (some (kwargs.getD false))

/-- The response value a send produces; a transport failure caught by safe
mode is attached to the returned response through its `error` field, where
the caller can observe it. -/
structure Response where
  error : Option String
deriving DecidableEq

/-- The body of `Session._send_request` (sessions.py lines 314-319):
`r.send(...)` either succeeds, leaving `r.response`, or raises a transport
error; the outcome of that external send is the `outcome` argument, and the
body simply surfaces it. -/
def Session.send_request_body (outcome : Except String Response) :
    Except String Response :=
  outcome

/-- Modelled from the spec: the `catch_exceptions_if_in_safe_mode` decorator
(requests.safe_mode, not part of the sources) wraps `_send_request`; with
the process-wide safe mode engaged it catches a transport error and returns
a response carrying that error, with safe mode disengaged the error
propagates unchanged. -/
def catch_exceptions_if_in_safe_mode (safeMode : Bool)
    (act : Except String Response) : Except String Response :=
  match act with
  | .ok r => .ok r
  | .error e => if safeMode then .ok { error := some e } else .error e

/-- `Session._send_request` as called from `request()` when
`return_response` is true (sessions.py lines 307-319): the decorated send
body. -/
def Session.send_request (safeMode : Bool) (outcome : Except String Response) :
    Except String Response :=
  catch_exceptions_if_in_safe_mode safeMode (Session.send_request_body outcome)

/-- `Session.get` reaching the send step (sessions.py lines 311, 321-334):
a verb method delegates to `request`, which, with the default
`return_response=True`, returns `self._send_request(...)`. -/
def Session.get_send (safeMode : Bool) (outcome : Except String Response) :
    Except String Response :=
  Session.send_request safeMode outcome

/-! ### Lemmas about the dictionary operations -/

namespace Dict

variable {κ : Type u} {α : Type v} [DecidableEq κ]

@[simp] theorem lookup_nil (k : κ) : lookup ([] : List (κ × α)) k = none := rfl

theorem lookup_cons (p : κ × α) (d : List (κ × α)) (k : κ) :
    lookup (p :: d) k = if p.1 = k then some p.2 else lookup d k := by
  by_cases h : p.1 = k <;> simp [lookup, List.find?_cons, h]

@[simp] theorem hasKey_nil (k : κ) : hasKey ([] : List (κ × α)) k = false := rfl

theorem hasKey_eq_isSome_lookup (d : List (κ × α)) (k : κ) :
    hasKey d k = (lookup d k).isSome := by
  induction d with
  | nil => rfl
  | cons p rest ih =>
      by_cases h : p.1 = k <;>
        simp [hasKey, lookup_cons, h, ← ih, List.any_cons]

theorem lookup_none_of_not_hasKey (d : List (κ × α)) (k : κ)
    (h : ¬ hasKey d k = true) : lookup d k = none := by
  rw [hasKey_eq_isSome_lookup] at h
  cases hl : lookup d k with
  | none => rfl
  | some w => rw [hl] at h; simp at h

theorem mem_keys_of_lookup_some (d : List (κ × α)) (k : κ) (w : α)
    (h : lookup d k = some w) : k ∈ d.map (fun kv => kv.1) := by
  unfold lookup at h
  cases hf : d.find? (fun kv => kv.1 = k) with
  | none => rw [hf] at h; simp at h
  | some kv =>
      have hmem := List.mem_of_find?_eq_some hf
      have hp : kv.1 = k := by simpa using List.find?_some hf
      exact List.mem_map.mpr ⟨kv, hmem, hp⟩

theorem lookup_append (d₁ d₂ : List (κ × α)) (k : κ) :
    lookup (d₁ ++ d₂) k =
      (lookup d₁ k).orElse (fun _ => lookup d₂ k) := by
  induction d₁ with
  | nil => simp [lookup]
  | cons p rest ih =>
      by_cases h : p.1 = k <;>
        simp [lookup_cons, h, ih]

theorem lookup_map_overwrite_self (d : List (κ × α)) (k : κ) (v : α)
    (h : hasKey d k = true) :
    lookup (d.map (fun kv => if kv.1 = k then (k, v) else kv)) k = some v := by
  induction d with
  | nil => simp [hasKey] at h
  | cons p rest ih =>
      by_cases hp : p.1 = k
      · simp [lookup_cons, hp]
      · have hrest : hasKey rest k = true := by
          simpa [hasKey, List.any_cons, hp] using h
        simp [lookup_cons, hp, ih hrest]

theorem lookup_map_overwrite_ne (d : List (κ × α)) (k k' : κ) (v : α)
    (h : k' ≠ k) :
    lookup (d.map (fun kv => if kv.1 = k then (k, v) else kv)) k' =
      lookup d k' := by
  induction d with
  | nil => rfl
  | cons p rest ih =>
      have hne : ¬ k = k' := fun hh => h hh.symm
      by_cases hp : p.1 = k
      · simp [lookup_cons, hp, h, hne, ih]
      · by_cases hp' : p.1 = k' <;> simp [lookup_cons, hp, hp', h, hne, ih]

theorem lookup_insert_self (d : List (κ × α)) (k : κ) (v : α) :
    lookup (insert d k v) k = some v := by
  unfold insert
  by_cases h : hasKey d k
  · rw [if_pos h]
    exact lookup_map_overwrite_self d k v h
  · rw [if_neg h, lookup_append, lookup_none_of_not_hasKey d k h]
    simp [lookup_cons]

theorem lookup_insert_ne (d : List (κ × α)) (k k' : κ) (v : α) (h : k' ≠ k) :
    lookup (insert d k v) k' = lookup d k' := by
  unfold insert
  by_cases hk : hasKey d k
  · rw [if_pos hk]
    exact lookup_map_overwrite_ne d k k' v h
  · rw [if_neg hk, lookup_append]
    have hne : ¬ k = k' := fun hh => h hh.symm
    cases hl : lookup d k' <;> simp [lookup_cons, hne]

theorem lookup_erase_self (d : List (κ × α)) (k : κ) :
    lookup (erase d k) k = none := by
  induction d with
  | nil => rfl
  | cons p rest ih =>
      by_cases hp : p.1 = k
      · have h1 : erase (p :: rest) k = erase rest k := by
          simp [erase, List.filter_cons, hp]
        rw [h1, ih]
      · have h1 : erase (p :: rest) k = p :: erase rest k := by
          simp [erase, List.filter_cons, hp]
        rw [h1, lookup_cons, if_neg hp, ih]

theorem lookup_erase_ne (d : List (κ × α)) (k k' : κ) (h : k' ≠ k) :
    lookup (erase d k) k' = lookup d k' := by
  induction d with
  | nil => rfl
  | cons p rest ih =>
      by_cases hp : p.1 = k
      · have hp' : ¬ p.1 = k' := by rw [hp]; exact Ne.symm h
        have h1 : erase (p :: rest) k = erase rest k := by
          simp [erase, List.filter_cons, hp]
        rw [h1, ih, lookup_cons, if_neg hp']
      · have h1 : erase (p :: rest) k = p :: erase rest k := by
          simp [erase, List.filter_cons, hp]
        rw [h1, lookup_cons, lookup_cons, ih]

theorem hasKey_insert_true (d : List (κ × α)) (k : κ) (v : α) :
    hasKey (insert d k v) k = true := by
  rw [hasKey_eq_isSome_lookup, lookup_insert_self]
  rfl

theorem hasKey_erase (d : List (κ × α)) (k k' : κ) (h : k' ≠ k) :
    hasKey (erase d k) k' = hasKey d k' := by
  rw [hasKey_eq_isSome_lookup, hasKey_eq_isSome_lookup, lookup_erase_ne d k k' h]

theorem lookup_setdefault (d : List (κ × α)) (k k' : κ) (v : α) :
    lookup (setdefault d k v) k' =
      (lookup d k').orElse
        (fun _ => if k' = k then some v else none) := by
  unfold setdefault
  by_cases hk : hasKey d k
  · rw [if_pos hk]
    cases hl : lookup d k' with
    | some w => simp
    | none =>
        by_cases h : k' = k
        · subst h
          rw [hasKey_eq_isSome_lookup, hl] at hk
          simp at hk
        · simp [h]
  · rw [if_neg hk, lookup_append]
    by_cases h : k' = k
    · subst h
      rw [lookup_none_of_not_hasKey d k' hk]
      simp [lookup_cons]
    · have hne : ¬ k = k' := fun hh => h hh.symm
      cases hl : lookup d k' with
      | some w => simp
      | none => simp [lookup_cons, h, hne]

theorem lookup_update (d l : List (κ × α)) (k : κ)
    (hl : (l.map (fun kv => kv.1)).Nodup) :
    lookup (update d l) k =
      (lookup l k).orElse (fun _ => lookup d k) := by
  induction l generalizing d with
  | nil => simp [update, lookup]
  | cons p rest ih =>
      have hrest : (rest.map (fun kv => kv.1)).Nodup := (List.nodup_cons.mp hl).2
      have hnot : ¬ p.1 ∈ rest.map (fun kv => kv.1) := (List.nodup_cons.mp hl).1
      have step : update d (p :: rest) = update (insert d p.1 p.2) rest := rfl
      rw [step, ih _ hrest, lookup_cons]
      by_cases h : p.1 = k
      · subst h
        have hnone : lookup rest p.1 = none := by
          cases hr : lookup rest p.1 with
          | none => rfl
          | some w => exact absurd (mem_keys_of_lookup_some rest p.1 w hr) hnot
        simp [hnone, lookup_insert_self]
      · simp [lookup_insert_ne d p.1 k p.2 (fun hh => h hh.symm), h]

theorem hasKey_cons_self (p : κ × α) (d : List (κ × α)) :
    hasKey (p :: d) p.1 = true := by
  simp [hasKey]

theorem hasKey_cons_of (p : κ × α) (d : List (κ × α)) (k : κ)
    (h : hasKey d k = true) : hasKey (p :: d) k = true := by
  unfold hasKey at h ⊢
  rw [List.any_cons, h, Bool.or_true]

theorem lookup_of_mem (d : List (κ × α)) (kv : κ × α)
    (h : kv ∈ d) (hnodup : (d.map (fun x => x.1)).Nodup) :
    lookup d kv.1 = some kv.2 := by
  induction d with
  | nil => cases h
  | cons p rest ih =>
      rcases List.mem_cons.mp h with h' | h'
      · subst h'
        simp [lookup_cons]
      · have hne : ¬ p.1 = kv.1 := by
          intro hp
          have hmem : kv.1 ∈ rest.map (fun x => x.1) :=
            List.mem_map.mpr ⟨kv, h', rfl⟩
          apply (List.nodup_cons.mp hnodup).1
          simpa [hp] using hmem
        rw [lookup_cons, if_neg hne]
        exact ih h' (List.nodup_cons.mp hnodup).2

theorem hasKey_update_right (d l : List (κ × α)) (k : κ)
    (hl : (l.map (fun kv => kv.1)).Nodup)
    (h : hasKey l k = true) : hasKey (update d l) k = true := by
  rw [hasKey_eq_isSome_lookup] at h ⊢
  rw [lookup_update d l k hl]
  cases hx : lookup l k with
  | none => rw [hx] at h; simp at h
  | some w => simp [hx]

end Dict

/-! ### Lemmas about the merge pipeline -/

theorem lookupIsNone_cons_ne (p : String × PyVal)
    (rest : List (String × PyVal)) (k : String) (h : ¬ p.1 = k) :
    lookupIsNone (p :: rest) k = lookupIsNone rest k := by
  unfold lookupIsNone
  rw [Dict.lookup_cons, if_neg h]

theorem lookupIsNone_head (p : String × PyVal)
    (rest : List (String × PyVal)) :
    lookupIsNone (p :: rest) p.1 = p.2.isNone := by
  unfold lookupIsNone
  rw [Dict.lookup_cons, if_pos rfl]

theorem del_dead_keys_spec (l : List (String × PyVal)) :
    ∀ kwargs : List (String × PyVal),
    (l.map (fun kv => kv.1)).Nodup →
    (∀ k, Dict.hasKey l k = true → Dict.hasKey kwargs k = true) →
    ∃ r, del_dead_keys kwargs l = .ok r ∧
      ∀ k, Dict.lookup r k =
        if lookupIsNone l k then none else Dict.lookup kwargs k := by
  induction l with
  | nil =>
      intro kwargs _ _
      exact ⟨kwargs, rfl, fun k => by simp [lookupIsNone, Dict.lookup]⟩
  | cons p rest ih =>
      intro kwargs hnodup hsub
      have hnodup' : (rest.map (fun kv => kv.1)).Nodup :=
        (List.nodup_cons.mp hnodup).2
      have hnotmem : ¬ p.1 ∈ rest.map (fun kv => kv.1) := by
        have := (List.nodup_cons.mp hnodup).1
        simpa using this
      have hrest_none : Dict.lookup rest p.1 = none := by
        cases hr : Dict.lookup rest p.1 with
        | none => rfl
        | some w => exact absurd (Dict.mem_keys_of_lookup_some rest p.1 w hr) hnotmem
      have hrestIsNone : lookupIsNone rest p.1 = false := by
        unfold lookupIsNone
        rw [hrest_none]
      have hhead : Dict.hasKey kwargs p.1 = true :=
        hsub p.1 (Dict.hasKey_cons_self p rest)
      cases hv : p.2.isNone with
      | true =>
          have hsub' : ∀ k, Dict.hasKey rest k = true →
              Dict.hasKey (Dict.erase kwargs p.1) k = true := by
            intro k hk
            have hkne : k ≠ p.1 := by
              intro he
              subst he
              apply hnotmem
              rw [Dict.hasKey_eq_isSome_lookup] at hk
              cases hr : Dict.lookup rest p.1 with
              | none => rw [hr] at hk; simp at hk
              | some w => exact Dict.mem_keys_of_lookup_some rest p.1 w hr
            rw [Dict.hasKey_erase kwargs p.1 k hkne]
            exact hsub k (Dict.hasKey_cons_of p rest k hk)
          obtain ⟨r, hr, hchar⟩ := ih (Dict.erase kwargs p.1) hnodup' hsub'
          refine ⟨r, ?_, ?_⟩
          · unfold del_dead_keys
            rw [hv, if_pos rfl, if_pos hhead]
            exact hr
          · intro k
            rw [hchar k]
            by_cases hk : k = p.1
            · subst hk
              rw [hrestIsNone, lookupIsNone_head, hv]
              simp [Dict.lookup_erase_self]
            · rw [lookupIsNone_cons_ne p rest k (fun hh => hk hh.symm),
                Dict.lookup_erase_ne kwargs p.1 k hk]
      | false =>
          obtain ⟨r, hr, hchar⟩ := ih kwargs hnodup'
            (fun k hk => hsub k (Dict.hasKey_cons_of p rest k hk))
          refine ⟨r, ?_, ?_⟩
          · unfold del_dead_keys
            rw [hv]
            simp only [Bool.false_eq_true, if_false]
            exact hr
          · intro k
            rw [hchar k]
            by_cases hk : k = p.1
            · subst hk
              rw [hrestIsNone, lookupIsNone_head, hv]
            · rw [lookupIsNone_cons_ne p rest k (fun hh => hk hh.symm)]

theorem merge_dicts_char (dd dl : List (String × PyVal))
    (hl : (dl.map (fun kv => kv.1)).Nodup) :
    ∃ r, merge_kwargs (.dict dl) (.dict dd) = .ok (.dict r) ∧
      ∀ k, Dict.lookup r k =
        if lookupIsNone dl k then none
        else (Dict.lookup dl k).orElse (fun _ => Dict.lookup dd k) := by
  have hsub : ∀ k, Dict.hasKey dl k = true →
      Dict.hasKey (Dict.update dd dl) k = true :=
    fun k hk => Dict.hasKey_update_right dd dl k hl hk
  obtain ⟨r, hr, hchar⟩ := del_dead_keys_spec dl (Dict.update dd dl) hl hsub
  refine ⟨r, ?_, ?_⟩
  · have e : merge_kwargs (.dict dl) (.dict dd) =
        (del_dead_keys (Dict.update dd dl) dl).bind
          (fun kw => .ok (.dict kw)) := rfl
    rw [e, hr]
    rfl
  · intro k
    rw [hchar k, Dict.lookup_update dd dl k hl]

/-! ### Lemmas about hook seeding -/

theorem seedHooks_lookup (callHooks sessionHooks : List (String × PyVal))
    (k : String) :
    Dict.lookup (seedHooks callHooks sessionHooks) k =
      (Dict.lookup callHooks k).orElse
        (fun _ => Dict.lookup sessionHooks k) := by
  induction sessionHooks generalizing callHooks with
  | nil =>
      cases hl : Dict.lookup callHooks k <;> simp [seedHooks, hl]
  | cons p rest ih =>
      have step : seedHooks callHooks (p :: rest) =
          seedHooks (Dict.setdefault callHooks p.1 p.2) rest := rfl
      rw [step, ih, Dict.lookup_setdefault, Dict.lookup_cons]
      cases hl : Dict.lookup callHooks k with
      | some w => simp
      | none =>
          by_cases h : p.1 = k
          · subst h
            simp
          · have h' : ¬ k = p.1 := fun hh => h hh.symm
            simp [h, h']

/-! ### Lemmas about the cookie jar -/

theorem Jar.lookup_empty (key : String × String × String) :
    Jar.lookup [] key = none := rfl

theorem Jar.lookup_cons_cookie (c : Cookie) (j : Jar) (key : String × String × String) :
    Jar.lookup (c :: j) key =
      if c.key = key then some c.value else Jar.lookup j key := by
  by_cases h : c.key = key <;> simp [Jar.lookup, List.find?_cons, h]

theorem Jar.lookup_none_of_forall (j : Jar) (key : String × String × String)
    (h : ∀ c ∈ j, ¬ c.key = key) : Jar.lookup j key = none := by
  unfold Jar.lookup
  rw [List.find?_eq_none.mpr (fun c hc => by simpa using h c hc)]
  rfl

theorem Jar.lookup_append_jar (j₁ j₂ : Jar) (key : String × String × String) :
    Jar.lookup (j₁ ++ j₂) key =
      (Jar.lookup j₁ key).orElse (fun _ => Jar.lookup j₂ key) := by
  induction j₁ with
  | nil => simp [Jar.lookup]
  | cons c rest ih =>
      by_cases h : c.key = key <;>
        simp [Jar.lookup_cons_cookie, h, ih]

theorem Jar.lookup_overwrite_self (j : Jar) (c : Cookie)
    (h : j.any (fun x => x.key = c.key) = true) :
    Jar.lookup (j.map (fun x => if x.key = c.key then c else x)) c.key =
      some c.value := by
  induction j with
  | nil => simp at h
  | cons x rest ih =>
      by_cases hx : x.key = c.key
      · simp [Jar.lookup_cons_cookie, hx]
      · have hrest : rest.any (fun y => y.key = c.key) = true := by
          simpa [List.any_cons, hx] using h
        simp [Jar.lookup_cons_cookie, hx, ih hrest]

theorem Jar.lookup_overwrite_ne (j : Jar) (c : Cookie)
    (key : String × String × String) (h : key ≠ c.key) :
    Jar.lookup (j.map (fun x => if x.key = c.key then c else x)) key =
      Jar.lookup j key := by
  induction j with
  | nil => rfl
  | cons x rest ih =>
      have hne : ¬ c.key = key := fun hh => h hh.symm
      by_cases hx : x.key = c.key
      · have hxk : ¬ x.key = key := by rw [hx]; exact hne
        simp [Jar.lookup_cons_cookie, hx, h, hne, hxk, ih]
      · by_cases hxk : x.key = key <;>
          simp [Jar.lookup_cons_cookie, hx, hxk, h, hne, ih]

theorem Jar.lookup_set_self (j : Jar) (c : Cookie) :
    Jar.lookup (j.set_cookie c) c.key = some c.value := by
  unfold Jar.set_cookie
  by_cases h : j.any (fun x => x.key = c.key)
  · rw [if_pos h]
    exact Jar.lookup_overwrite_self j c h
  · rw [if_neg h, Jar.lookup_append_jar]
    have hnone : Jar.lookup j c.key = none := by
      apply Jar.lookup_none_of_forall
      intro x hx hkey
      exact h (List.any_eq_true.mpr ⟨x, hx, by simpa using hkey⟩)
    rw [hnone]
    simp [Jar.lookup_cons_cookie]

theorem Jar.lookup_set_ne (j : Jar) (c : Cookie)
    (key : String × String × String) (h : key ≠ c.key) :
    Jar.lookup (j.set_cookie c) key = Jar.lookup j key := by
  unfold Jar.set_cookie
  by_cases hj : j.any (fun x => x.key = c.key)
  · rw [if_pos hj]
    exact Jar.lookup_overwrite_ne j c key h
  · rw [if_neg hj, Jar.lookup_append_jar]
    have hne : ¬ c.key = key := fun hh => h hh.symm
    cases hl : Jar.lookup j key <;>
      simp [Jar.lookup_cons_cookie, Jar.lookup_empty, hne, hl]

theorem Jar.lookup_foldl_set_preserve (cs : List Cookie) (j : Jar)
    (key : String × String × String) (h : ∀ x ∈ cs, ¬ x.key = key) :
    Jar.lookup (cs.foldl Jar.set_cookie j) key = Jar.lookup j key := by
  induction cs generalizing j with
  | nil => rfl
  | cons c rest ih =>
      have step : (c :: rest).foldl Jar.set_cookie j =
          rest.foldl Jar.set_cookie (j.set_cookie c) := rfl
      rw [step, ih (j.set_cookie c) (fun x hx => h x (List.mem_cons_of_mem c hx)),
        Jar.lookup_set_ne j c key (fun hh => h c (List.mem_cons_self c rest) hh.symm)]

theorem Jar.lookup_foldl_set (cs : List Cookie) (j : Jar) (c : Cookie)
    (hmem : c ∈ cs) (hnodup : (cs.map Cookie.key).Nodup) :
    Jar.lookup (cs.foldl Jar.set_cookie j) c.key = some c.value := by
  induction cs generalizing j with
  | nil => cases hmem
  | cons c0 rest ih =>
      rw [List.map_cons] at hnodup
      have hnotmem : ¬ c0.key ∈ rest.map Cookie.key := (List.nodup_cons.mp hnodup).1
      have hnodup' : (rest.map Cookie.key).Nodup := (List.nodup_cons.mp hnodup).2
      have step : (c0 :: rest).foldl Jar.set_cookie j =
          rest.foldl Jar.set_cookie (j.set_cookie c0) := rfl
      rcases List.mem_cons.mp hmem with h' | h'
      · subst h'
        rw [step]
        rw [Jar.lookup_foldl_set_preserve rest (j.set_cookie c) c.key
          (fun x hx hkey => hnotmem (by
            rw [← hkey]
            exact List.mem_map.mpr ⟨x, hx, rfl⟩))]
        exact Jar.lookup_set_self j c
      · rw [step]
        exact ih (j.set_cookie c0) h' hnodup'

theorem Jar.lookup_remove_ne (j : Jar) (m : String)
    (key : String × String × String) (h : key.1 ≠ m) :
    Jar.lookup (remove_cookie_by_name j m) key = Jar.lookup j key := by
  induction j with
  | nil => rfl
  | cons c rest ih =>
      by_cases hc : c.name = m
      · have h1 : remove_cookie_by_name (c :: rest) m =
            remove_cookie_by_name rest m := by
          simp [remove_cookie_by_name, List.filter_cons, hc]
        have hck : ¬ c.key = key := by
          intro hk
          apply h
          rw [← hk, Cookie.key] at *
          exact hc.symm ▸ rfl
        rw [h1, ih, Jar.lookup_cons_cookie, if_neg hck]
      · have h1 : remove_cookie_by_name (c :: rest) m =
            c :: remove_cookie_by_name rest m := by
          simp [remove_cookie_by_name, List.filter_cons, hc]
        rw [h1, Jar.lookup_cons_cookie, Jar.lookup_cons_cookie, ih]

theorem Jar.lookup_foldl_remove (names : List String) (j : Jar)
    (key : String × String × String) (h : ¬ key.1 ∈ names) :
    Jar.lookup (names.foldl remove_cookie_by_name j) key = Jar.lookup j key := by
  induction names generalizing j with
  | nil => rfl
  | cons m rest ih =>
      have step : (m :: rest).foldl remove_cookie_by_name j =
          rest.foldl remove_cookie_by_name (remove_cookie_by_name j m) := rfl
      rw [step, ih (remove_cookie_by_name j m)
        (fun hmem => h (List.mem_cons_of_mem m hmem)),
        Jar.lookup_remove_ne j m key
          (fun hh => h (by rw [hh]; exact List.mem_cons_self m rest))]

theorem not_mem_deadNames (d : List (String × Option String)) (n : String)
    (w : String) (hnodup : (d.map (fun kv => kv.1)).Nodup)
    (hd : Dict.lookup d n = some (some w)) : ¬ n ∈ deadNames d := by
  intro hmem
  obtain ⟨kv, hkv, hf⟩ := List.mem_filterMap.mp hmem
  have hkv1 : kv.1 = n ∧ kv.2 = none := by
    by_cases h2 : kv.2 = none
    · refine ⟨?_, h2⟩
      simp [h2] at hf
      exact hf
    · simp [h2] at hf
  have := Dict.lookup_of_mem d kv hkv hnodup
  rw [hkv1.1, hd] at this
  rw [hkv1.2] at this
  cases this

/-! ### The claims -/

/-- Claim C1: for a session whose cookie jar contains exactly the cookies
a↦1 and b↦2 (any domain/path), a `request()` call passing the cookies
mapping b↦None, c↦3 builds a per-call jar containing exactly c↦3 and a↦1
(b explicitly unset, a inherited from the session, c newly provided), and
the session's own jar is left exactly as it was: the None-purge and all
per-call insertions touch only the fresh per-call jar. -/
theorem claim_C1_cookie_reconciliation (s : Session) (da pa db pb : String) :
    Session.requestCookieEffect
        { s with cookies :=
            [⟨"a", da, pa, some "1"⟩, ⟨"b", db, pb, some "2"⟩] }
        (.dict [("b", none), ("c", some "3")]) =
      ({ s with cookies :=
            [⟨"a", da, pa, some "1"⟩, ⟨"b", db, pb, some "2"⟩] },
        [⟨"c", "", "/", some "3"⟩, ⟨"a", da, pa, some "1"⟩]) := by
  refine Prod.ext rfl ?_
  show List.foldl remove_cookie_by_name
      (List.foldl Jar.set_cookie
        (cookiejar_from_dict (some [("b", none), ("c", some "3")]))
        [⟨"a", da, pa, some "1"⟩, ⟨"b", db, pb, some "2"⟩])
      (deadNames [("b", none), ("c", some "3")]) =
    [⟨"c", "", "/", some "3"⟩, ⟨"a", da, pa, some "1"⟩]
  have hjar : cookiejar_from_dict (some [("b", none), ("c", some "3")]) =
      [⟨"b", "", "/", none⟩, ⟨"c", "", "/", some "3"⟩] := rfl
  have hdead : deadNames [("b", none), ("c", some "3")] = ["b"] := rfl
  rw [hjar, hdead]
  simp only [List.foldl_cons, List.foldl_nil]
  have hsetA : Jar.set_cookie [⟨"b", "", "/", none⟩, ⟨"c", "", "/", some "3"⟩]
      ⟨"a", da, pa, some "1"⟩ =
      [⟨"b", "", "/", none⟩, ⟨"c", "", "/", some "3"⟩, ⟨"a", da, pa, some "1"⟩] := by
    simp [Jar.set_cookie, Cookie.key]
  rw [hsetA]
  by_cases h1 : (("" : String) = db ∧ ("/" : String) = pb) <;>
    simp [Jar.set_cookie, Cookie.key, remove_cookie_by_name, h1,
      List.filter_cons]

/-- Claim C2: for mappings, every local key bound to the absent sentinel is
absent from the merge result even when the session default contains it,
every other local key overwrites the same-key default entry, and default
keys not mentioned locally are retained: `merge_kwargs` on two dictionaries
(the local one, as any Python dict, has unique keys) succeeds and its result
looks up to exactly that. -/
theorem claim_C2_merge_overlay_delete (dd dl : List (String × PyVal))
    (hdl : (dl.map (fun kv => kv.1)).Nodup) :
    ∃ r, merge_kwargs (.dict dl) (.dict dd) = .ok (.dict r) ∧
      ∀ k, Dict.lookup r k =
        if lookupIsNone dl k then none
        else (Dict.lookup dl k).orElse (fun _ => Dict.lookup dd k) :=
  merge_dicts_char dd dl hdl

/-- Claim C2 witness: the characterization at the concrete merge of local
b↦None, c↦3 over default a↦1, b↦2. -/
theorem claim_C2_merge_overlay_delete_witness :
    (([("b", PyVal.none), ("c", PyVal.num 3)].map
        (fun kv => kv.1)).Nodup) ∧
    ∃ r, merge_kwargs (.dict [("b", PyVal.none), ("c", PyVal.num 3)])
        (.dict [("a", PyVal.num 1), ("b", PyVal.num 2)]) = .ok (.dict r) ∧
      ∀ k, Dict.lookup r k =
        if lookupIsNone [("b", PyVal.none), ("c", PyVal.num 3)] k then none
        else (Dict.lookup [("b", PyVal.none), ("c", PyVal.num 3)] k).orElse
          (fun _ => Dict.lookup [("a", PyVal.num 1), ("b", PyVal.num 2)] k) :=
  ⟨by decide,
    claim_C2_merge_overlay_delete
      [("a", PyVal.num 1), ("b", PyVal.num 2)]
      [("b", PyVal.none), ("c", PyVal.num 3)] (by decide)⟩

/-- Claim C3 counterexample: the claim extends the identity law to an
empty-but-present session default, but the code only short-circuits on an
absent (`None`) default.  With local value `None` and default the empty
mapping, `merge_kwargs` returns the empty mapping, which is not the local
value `None`. -/
theorem claim_C3_counterexample :
    merge_kwargs PyVal.none (PyVal.dict []) = Except.ok (PyVal.dict []) ∧
    (Except.ok (PyVal.dict []) : Except MergeErr PyVal) ≠
      Except.ok PyVal.none := by
  refine ⟨rfl, ?_⟩
  intro h
  injection h with h'
  cases h'

/-- Claim C3 (amended): for every local value, including the absent one,
`merge_kwargs` with an absent (`None`) session default returns the local
value unchanged; an empty-but-present mapping default does not satisfy this
identity in general. -/
theorem claim_C3_absent_default_identity (local_kwarg : PyVal) :
    merge_kwargs local_kwarg PyVal.none = .ok local_kwarg := rfl

/-- Claim C4: session cookies are upserted into the per-call jar after the
call-provided cookies, so a cookie key present in the session's jar wins
over a call-provided cookie with the same key and a non-None value; the
dead-name removal that follows does not disturb it. -/
theorem claim_C4_session_cookie_precedence (s : Session)
    (d : List (String × Option String)) (n v w : String)
    (hjar : (s.cookies.map Cookie.key).Nodup)
    (hd : (d.map (fun kv => kv.1)).Nodup)
    (hs : (⟨n, "", "/", some v⟩ : Cookie) ∈ s.cookies)
    (hc : Dict.lookup d n = some (some w)) :
    Jar.lookup (Session.requestCookieEffect s (.dict d)).2 (n, "", "/") =
      some (some v) := by
  have h2 : (Session.requestCookieEffect s (.dict d)).2 =
      (deadNames d).foldl remove_cookie_by_name
        (s.cookies.foldl Jar.set_cookie (cookiejar_from_dict (some d))) := rfl
  rw [h2]
  have hnotdead : ¬ n ∈ deadNames d := not_mem_deadNames d n w hd hc
  rw [Jar.lookup_foldl_remove (deadNames d)
    (s.cookies.foldl Jar.set_cookie (cookiejar_from_dict (some d)))
    (n, "", "/") hnotdead]
  have := Jar.lookup_foldl_set s.cookies (cookiejar_from_dict (some d))
    ⟨n, "", "/", some v⟩ hs hjar
  simpa [Cookie.key] using this

/-- Claim C4 witness: a concrete session whose jar holds k↦sv while the
call passes k↦cv; the per-call jar ends up holding sv at that key. -/
theorem claim_C4_session_cookie_precedence_witness :
    ((([⟨"k", "", "/", some "sv"⟩] : Jar).map Cookie.key).Nodup) ∧
    (([("k", some "cv")].map
        (fun kv : String × Option String => kv.1)).Nodup) ∧
    ((⟨"k", "", "/", some "sv"⟩ : Cookie) ∈ ([⟨"k", "", "/", some "sv"⟩] : Jar)) ∧
    Dict.lookup [("k", some "cv")] "k" = some (some "cv") ∧
    Jar.lookup
      (Session.requestCookieEffect
        ⟨[], [⟨"k", "", "/", some "sv"⟩], .none, .none, [], [], [], [],
          .none, .none, true, ⟨none, none⟩⟩
        (.dict [("k", some "cv")])).2 ("k", "", "/") = some (some "sv") :=
  ⟨by decide, by decide, by decide, by decide,
    claim_C4_session_cookie_precedence
      ⟨[], [⟨"k", "", "/", some "sv"⟩], .none, .none, [], [], [], [],
        .none, .none, true, ⟨none, none⟩⟩
      [("k", some "cv")] "k" "sv" "cv"
      (by decide) (by decide) (by decide) (by decide)⟩

/-- Claim C5: with the process-wide safe mode engaged, a transport failure
raised during send from a verb method such as `get()` is caught and the
call returns a non-raising result whose response carries the error; with
safe mode disengaged the same failure propagates as a raised error. -/
theorem claim_C5_safe_mode (outcome : Except String Response) (e : String)
    (h : outcome = Except.error e) :
    Session.get_send true outcome = Except.ok { error := some e } ∧
    Session.get_send false outcome = Except.error e := by
  subst h
  exact ⟨rfl, rfl⟩

/-- Claim C5 witness: a concrete connection failure. -/
theorem claim_C5_safe_mode_witness :
    ((Except.error "ConnectionError" : Except String Response) =
      Except.error "ConnectionError") ∧
    (Session.get_send true (Except.error "ConnectionError") =
      Except.ok { error := some "ConnectionError" } ∧
     Session.get_send false (Except.error "ConnectionError") =
      Except.error "ConnectionError") :=
  ⟨rfl, claim_C5_safe_mode (Except.error "ConnectionError") "ConnectionError" rfl⟩

/-- Claim C6: for every pair of mappings reaching the overlay-and-delete
step of the merge (the local one, as the output of the normalizer, has
unique keys), the deletion pass never attempts to delete a key absent from
the base mapping: every deleted key was inserted by the preceding
`Dict.update` overlay, so `del_dead_keys` always succeeds and the
`KeyErrorKind` branch is unreachable. -/
theorem claim_C6_delete_no_keyerror (dd dl : List (String × PyVal))
    (hdl : (dl.map (fun kv => kv.1)).Nodup) :
    ∃ r, del_dead_keys (Dict.update dd dl) dl = Except.ok r := by
  obtain ⟨r, hr, _⟩ := del_dead_keys_spec dl (Dict.update dd dl) hdl
    (fun k hk => Dict.hasKey_update_right dd dl k hdl hk)
  exact ⟨r, hr⟩

/-- Claim C6 witness: the deletion pass succeeds on a concrete overlay in
which a local key carries the `None` sentinel. -/
theorem claim_C6_delete_no_keyerror_witness :
    (([("b", PyVal.none), ("c", PyVal.num 3)].map
        (fun kv => kv.1)).Nodup) ∧
    ∃ r, del_dead_keys
        (Dict.update [("a", PyVal.num 1), ("b", PyVal.num 2)]
          [("b", PyVal.none), ("c", PyVal.num 3)])
        [("b", PyVal.none), ("c", PyVal.num 3)] = Except.ok r :=
  ⟨by decide,
    claim_C6_delete_no_keyerror
      [("a", PyVal.num 1), ("b", PyVal.num 2)]
      [("b", PyVal.none), ("c", PyVal.num 3)] (by decide)⟩

/-- Claim C7: the hooks used for the call are seeded so that for every
event name the call-level hook wins when both the call and the session
register one, a session hook is added when the call has none for that
event, and hooks under distinct event names all survive: the seeded mapping
looks up the call's hooks first and falls back to the session's. -/
theorem claim_C7_hook_seeding (callHooks sessionHooks : List (String × PyVal))
    (k : String) :
    Dict.lookup (seedHooks callHooks sessionHooks) k =
      (Dict.lookup callHooks k).orElse
        (fun _ => Dict.lookup sessionHooks k) :=
  seedHooks_lookup callHooks sessionHooks k

/-- Claim C8: exporting a session's snapshot and restoring from it yields a
session whose tracked attributes all equal the original's, with a freshly
constructed pool handle configured from the restored config; and the
snapshot never depends on the pool handle. -/
theorem claim_C8_snapshot_roundtrip (s : Session) :
    (Session.setstate (Session.getstate s)).headers = s.headers ∧
    (Session.setstate (Session.getstate s)).cookies = s.cookies ∧
    (Session.setstate (Session.getstate s)).auth = s.auth ∧
    (Session.setstate (Session.getstate s)).timeout = s.timeout ∧
    (Session.setstate (Session.getstate s)).proxies = s.proxies ∧
    (Session.setstate (Session.getstate s)).hooks = s.hooks ∧
    (Session.setstate (Session.getstate s)).params = s.params ∧
    (Session.setstate (Session.getstate s)).config = s.config ∧
    (Session.setstate (Session.getstate s)).verify = s.verify ∧
    (Session.setstate (Session.getstate s)).cert = s.cert ∧
    (Session.setstate (Session.getstate s)).prefetch = s.prefetch ∧
    (Session.setstate (Session.getstate s)).poolmanager =
      Session.init_poolmanager s.config ∧
    ∀ pm : PoolManager,
      Session.getstate { s with poolmanager := pm } = Session.getstate s :=
  ⟨rfl, rfl, rfl, rfl, rfl, rfl, rfl, rfl, rfl, rfl, rfl, rfl, fun _ => rfl⟩

/-- Claim C9: `get` and `options` default `allow_redirects` to true, `head`
defaults it to false, and an explicit caller-supplied value wins in all
three. -/
theorem claim_C9_verb_allow_redirects :
    (Session.get_allow_redirects none = true ∧
     Session.options_allow_redirects none = true ∧
     Session.head_allow_redirects none = false) ∧
    ∀ b : Bool,
      Session.get_allow_redirects (some b) = b ∧
      Session.options_allow_redirects (some b) = b ∧
      Session.head_allow_redirects (some b) = b :=
  ⟨⟨rfl, rfl, rfl⟩, fun _ => ⟨rfl, rfl, rfl⟩⟩

/-- Claim C10: when the caller passes its own `headers` and `hooks`
dictionary objects, `request()` writes through those very objects rather
than copies: after the mutation prefix the caller's `hooks` object holds
its own hooks seeded with the session's (per-event, call level winning) and
the caller's `headers` object holds every value replaced by its expanded
wire form. -/
theorem claim_C10_caller_objects_mutated (st : Store)
    (h0 k0 sessionHooks : List (String × PyVal)) (ha ka : Nat)
    (hne : ha ≠ ka)
    (hh : Dict.lookup st ha = some h0)
    (hk : Dict.lookup st ka = some k0) :
    (Session.requestMutateCaller st (some ha) (some ka) sessionHooks).2.1 = ha ∧
    (Session.requestMutateCaller st (some ha) (some ka) sessionHooks).2.2 = ka ∧
    Dict.lookup (Session.requestMutateCaller st (some ha) (some ka)
        sessionHooks).1 ha = some (expandHeaders h0) ∧
    Dict.lookup (Session.requestMutateCaller st (some ha) (some ka)
        sessionHooks).1 ka = some (seedHooks k0 sessionHooks) := by
  have l1 : Dict.lookup (Dict.insert st ka (seedHooks k0 sessionHooks)) ha =
      some h0 := by
    rw [Dict.lookup_insert_ne st ka ha (seedHooks k0 sessionHooks) hne, hh]
  refine ⟨?_, ?_, ?_, ?_⟩ <;>
    simp only [Session.requestMutateCaller, hk, l1]
  · exact Dict.lookup_insert_self
      (Dict.insert st ka (seedHooks k0 sessionHooks)) ha (expandHeaders h0)
  · rw [Dict.lookup_insert_ne
      (Dict.insert st ka (seedHooks k0 sessionHooks)) ha ka
      (expandHeaders h0) (Ne.symm hne)]
    exact Dict.lookup_insert_self st ka (seedHooks k0 sessionHooks)

/-- Claim C10 witness: a concrete store holding the caller's headers
object at address 0 and hooks object at address 1. -/
theorem claim_C10_caller_objects_mutated_witness :
    ((0 : Nat) ≠ 1) ∧
    Dict.lookup
      ([(0, [("X", PyVal.list [PyVal.str "a", PyVal.str "b"])]), (1, [])] : Store)
      0 = some [("X", PyVal.list [PyVal.str "a", PyVal.str "b"])] ∧
    Dict.lookup
      ([(0, [("X", PyVal.list [PyVal.str "a", PyVal.str "b"])]), (1, [])] : Store)
      1 = some [] ∧
    ((Session.requestMutateCaller
        [(0, [("X", PyVal.list [PyVal.str "a", PyVal.str "b"])]), (1, [])]
        (some 0) (some 1) [("response", PyVal.str "cb")]).2.1 = 0 ∧
     (Session.requestMutateCaller
        [(0, [("X", PyVal.list [PyVal.str "a", PyVal.str "b"])]), (1, [])]
        (some 0) (some 1) [("response", PyVal.str "cb")]).2.2 = 1 ∧
     Dict.lookup (Session.requestMutateCaller
        [(0, [("X", PyVal.list [PyVal.str "a", PyVal.str "b"])]), (1, [])]
        (some 0) (some 1) [("response", PyVal.str "cb")]).1 0 =
      some (expandHeaders [("X", PyVal.list [PyVal.str "a", PyVal.str "b"])]) ∧
     Dict.lookup (Session.requestMutateCaller
        [(0, [("X", PyVal.list [PyVal.str "a", PyVal.str "b"])]), (1, [])]
        (some 0) (some 1) [("response", PyVal.str "cb")]).1 1 =
      some (seedHooks [] [("response", PyVal.str "cb")])) :=
  ⟨by decide, rfl, rfl,
    claim_C10_caller_objects_mutated
      [(0, [("X", PyVal.list [PyVal.str "a", PyVal.str "b"])]), (1, [])]
      [("X", PyVal.list [PyVal.str "a", PyVal.str "b"])] []
      [("response", PyVal.str "cb")] 0 1 (by decide) rfl rfl⟩

